import Mathlib

/-!
Verification of the content-listing and configuration logic of the astro-blog
repository.

The core under verification is the `sortedPosts` pipeline of the posts page
(`src/unnamed/part_001`, lines 15-21):

  const sortedPosts = posts
    .filter((p) => p.frontmatter.draft !== true)
    .sort(
      (a, b) =>
        new Date(b.frontmatter.date).valueOf() -
        new Date(a.frontmatter.date).valueOf()
    );

and the configuration module `src/config.ts`, whose constants are string
literals and whose `SITE_URL` is `new URL(import.meta.env.SITE).origin`.

JavaScript semantics embedded here:
- `Array.prototype.filter` builds a new array of the elements passing the
  predicate, in order: `List.filter`.
- `Array.prototype.sort` (ES2019 and later) sorts the array it is called on
  in place with a stable comparison sort; when the comparator returns a
  negative number, `a` is placed before `b`, when positive after, and when
  the comparator returns `0` or `NaN` the relative order of `a` and `b` is
  kept.  We embed it as a stable insertion sort (`jsSort`) driven by the
  source's comparator (`postCompare`).
- `new Date(x).valueOf()` yields the millisecond timestamp of a parsed date,
  or `NaN` when `x` does not parse.  We embed the date field as
  `Option CalDate` (`none` standing for any value the `Date` constructor
  turns into an invalid date) and the timestamp as `Option Int` (`none`
  standing for `NaN`); the day-to-milliseconds arithmetic follows the
  ECMAScript proleptic Gregorian calendar (`MakeDay`).  Frontmatter dates in
  this repository carry day precision, so time-of-day components are zero.
- The comparator subtraction on two valid timestamps is exact integer
  arithmetic (the values are far below 2^53, so no floating-point rounding
  occurs); when either operand is `NaN` the subtraction yields `NaN`, which
  the sort treats like `0` — `postCompare` returns `0` in that case.
-/

namespace AstroBlog

/-- A calendar date (year, month, day), as carried by a parsed frontmatter
`date` field.  Modelled from the spec: the frontmatter schema module
(`src/lib/markdoc/frontmatter.schema`) is not under `src/`; §3 of the spec
gives `date` as a required calendar date/time value. -/
structure CalDate where
  year : Nat
  month : Nat
  day : Nat
deriving DecidableEq, Repr

/-- Frontmatter of a Document.  Modelled from the spec (§3): `title`,
`description`, `date` required; `external` boolean; `draft` optional
boolean; `ogImagePath` and `url` optional.  The `date` field is the parse
result of the raw frontmatter value: `none` models a value that the
JavaScript `Date` constructor cannot parse (an invalid date). -/
structure Frontmatter where
  title : String
  description : String
  date : Option CalDate
  external : Bool
  draft : Option Bool
  ogImagePath : Option String
  url : Option String
deriving DecidableEq, Repr

/-- A Document as produced by the content reader: slug, validated
frontmatter, raw body (spec §3). -/
structure Document where
  slug : String
  frontmatter : Frontmatter
  body : String
deriving DecidableEq, Repr

/-- Gregorian leap-year rule, as in ECMAScript `DaysInYear`. -/
def isLeap (y : Nat) : Bool :=
  decide (y % 4 = 0 ∧ (y % 100 ≠ 0 ∨ y % 400 = 0))

/-- Number of days of month `m` (1-12) of year `y`. -/
def daysInMonth (y : Nat) (m : Nat) : Nat :=
  match m with
  | 2 => if isLeap y then 29 else 28
  | 4 => 30
  | 6 => 30
  | 9 => 30
  | 11 => 30
  | _ => 31

/-- Days of year `y` that precede the first day of month `m` (1-12);
`leap` is whether `y` is a leap year. -/
def daysBeforeMonth (leap : Bool) (m : Nat) : Nat :=
  let L : Nat := if leap then 1 else 0
  match m with
  | 1 => 0
  | 2 => 31
  | 3 => 59 + L
  | 4 => 90 + L
  | 5 => 120 + L
  | 6 => 151 + L
  | 7 => 181 + L
  | 8 => 212 + L
  | 9 => 243 + L
  | 10 => 273 + L
  | 11 => 304 + L
  | _ => 334 + L

/-- Days in the proleptic Gregorian calendar strictly before year `y`,
counted from year 0 (ECMAScript `DayFromYear`, shifted to a Nat origin). -/
def daysBeforeYear (y : Nat) : Nat :=
  365 * y + (y + 3) / 4 - (y + 99) / 100 + (y + 399) / 400

/-- Day number of a calendar date, counted from 0000-01-01
(ECMAScript `MakeDay`, shifted to a Nat origin). -/
def dayNumber (d : CalDate) : Nat :=
  daysBeforeYear d.year + daysBeforeMonth (isLeap d.year) d.month + (d.day - 1)

/-- Millisecond timestamp of a calendar date at midnight UTC, as produced by
`new Date(...).valueOf()` for a parsed date (ECMAScript `MakeDate` with the
Unix epoch 1970-01-01 at day number 719528). -/
def msOfDate (d : CalDate) : Int :=
  ((dayNumber d : Int) - (dayNumber ⟨1970, 1, 1⟩ : Int)) * 86400000

/-- Embedding of `new Date(x).valueOf()` on a frontmatter date field:
`none` is `NaN` (unparseable input), `some` the millisecond timestamp. -/
def jsDateValue : Option CalDate → Option Int
  | none => none
  | some d => some (msOfDate d)

/-- Timestamp of a Document's date, `none` when the date is invalid. -/
def tsOf (p : Document) : Option Int :=
  jsDateValue p.frontmatter.date

/-- Whether the month and day fields form a real calendar date. -/
def validYMD (d : CalDate) : Prop :=
  1 ≤ d.month ∧ d.month ≤ 12 ∧ 1 ≤ d.day ∧ d.day ≤ daysInMonth d.year d.month

instance (d : CalDate) : Decidable (validYMD d) := by
  unfold validYMD; infer_instance

/-- Boolean check that a frontmatter date field holds a valid calendar
date. -/
def validDate? : Option CalDate → Bool
  | none => false
  | some d => decide (validYMD d)

/-- The filter predicate of the listing page, line 16 of the source:
`(p) => p.frontmatter.draft !== true`. -/
def keepPost (p : Document) : Bool :=
  p.frontmatter.draft != some true

/-- The comparator of the listing page, lines 18-20 of the source:
`(a, b) => new Date(b.frontmatter.date).valueOf() - new Date(a.frontmatter.date).valueOf()`.
When either `valueOf()` is `NaN` the JavaScript subtraction is `NaN`, which
`Array.prototype.sort` treats exactly like a comparator result of `0`; the
embedding returns `0` in that case. -/
def postCompare (a b : Document) : Int :=
  match jsDateValue b.frontmatter.date, jsDateValue a.frontmatter.date with
  | some vb, some va => vb - va
  | _, _ => 0

/-- One step of the stable comparison sort of `Array.prototype.sort`:
insert `x` into `l`, passing over exactly the elements that must stay
before `x` (comparator strictly positive), so that `x` lands before the
first element it compares `≤ 0` against — elements comparing equal keep
the order in which they are inserted. -/
def jsSortInsert (x : Document) : List Document → List Document
  | [] => [x]
  | y :: ys =>
    if 0 < postCompare x y then y :: jsSortInsert x ys else x :: y :: ys

/-- Embedding of `Array.prototype.sort` with the comparator `postCompare`:
a stable insertion sort (the ECMAScript specification requires a stable
sort implementing the comparator ordering; any such sort is observationally
this one when the comparator is consistent). -/
def jsSort : List Document → List Document
  | [] => []
  | x :: xs => jsSortInsert x (jsSort xs)

/-- The listing pipeline `sortedPosts` of the source, lines 15-21:
filter out drafts, then sort by descending date. -/
def sortedPosts (posts : List Document) : List Document :=
  jsSort (posts.filter keepPost)

/-- Second elaboration of the insertion step, used to model a second
invocation of the same source expression (see `sortedPostsSecondCall`). -/
def jsSortInsertSecond (x : Document) : List Document → List Document
  | [] => [x]
  | y :: ys =>
    if 0 < postCompare x y then y :: jsSortInsertSecond x ys else x :: y :: ys

/-- Second elaboration of the stable sort. -/
def jsSortSecond : List Document → List Document
  | [] => []
  | x :: xs => jsSortInsertSecond x (jsSortSecond xs)

/-- A second invocation of the `sortedPosts` expression on the same input:
the same source text, elaborated afresh. -/
def sortedPostsSecondCall (posts : List Document) : List Document :=
  jsSortSecond (posts.filter keepPost)

/-- State of the listing-page computation.  `posts` is the array returned
by `readAll`; `scratch` is the intermediate array.  `Array.prototype.filter`
allocates a new array, and `Array.prototype.sort` mutates in place the
array it is called on — which here is the freshly allocated filter result,
never the `posts` array, and no Document object is ever written. -/
structure ListingState where
  posts : List Document
  scratch : List Document
deriving DecidableEq, Repr

/-- The listing-page computation with the array mutations made explicit as
state transitions: start from the input array, let `filter` allocate the
scratch array, let `sort` overwrite the scratch array in place, and return
the final state together with the value of `sortedPosts`. -/
def runListing (posts : List Document) : ListingState × List Document :=
  let s0 : ListingState := ⟨posts, []⟩
  let s1 : ListingState := { s0 with scratch := s0.posts.filter keepPost }
  let s2 : ListingState := { s1 with scratch := jsSort s1.scratch }
  (s2, s2.scratch)

/-- A parsed absolute URL, as produced by the WHATWG `URL` constructor:
scheme, host, port (with the scheme's default port elided, as the
constructor normalizes), path, query, fragment.  Modelled from the spec:
the `URL` constructor is a platform builtin, not code under `src/`; the
model covers `scheme://host[:port][/path][?query][#fragment]` and ignores
userinfo and IPv6 bracket syntax, which the repository's input never
uses. -/
structure URLRecord where
  scheme : String
  host : String
  port : Option Nat
  path : String
  query : Option String
  fragment : Option String
deriving DecidableEq, Repr

/-- The `origin` accessor of a parsed URL: scheme, host and explicit port
only — no path, query or fragment. -/
def URLRecord.origin (u : URLRecord) : String :=
  u.scheme ++ "://" ++ u.host ++
    (match u.port with
     | none => ""
     | some p => ":" ++ toString p)

/-- Characters allowed in a URL scheme. -/
def isSchemeChar (c : Char) : Bool :=
  c.isAlpha || c.isDigit || c == '+' || c == '-' || c == '.'

/-- Split a character list at the first occurrence of the literal
separator `://`, returning the parts before and after it. -/
def splitSchemeSep : List Char → Option (List Char × List Char)
  | [] => none
  | ':' :: '/' :: '/' :: rest => some ([], rest)
  | c :: rest =>
    match splitSchemeSep rest with
    | none => none
    | some (pre, post) => some (c :: pre, post)

/-- Take characters until one of the `stop` characters (kept in the
remainder) is reached. -/
def takeUntil (stop : List Char) : List Char → List Char × List Char
  | [] => ([], [])
  | c :: rest =>
    if stop.contains c then ([], c :: rest)
    else
      let (a, b) := takeUntil stop rest
      (c :: a, b)

/-- Parse a nonempty all-digit character list as a number. -/
def digitsToNat? (cs : List Char) : Option Nat :=
  if cs ≠ [] ∧ cs.all Char.isDigit then
    some (cs.foldl (fun n c => 10 * n + (c.toNat - 48)) 0)
  else none

/-- Parse the authority component `host[:port]`. -/
def parseAuthority (cs : List Char) : Option (String × Option Nat) :=
  let (hostCs, rest) := takeUntil [':'] cs
  match rest with
  | [] => if hostCs ≠ [] then some (String.mk hostCs, none) else none
  | ':' :: portCs =>
    if hostCs ≠ [] then
      (digitsToNat? portCs).map (fun p => (String.mk hostCs, some p))
    else none
  | _ => none

/-- Elide a scheme's default port, as the `URL` constructor does. -/
def normalizePort (scheme : String) : Option Nat → Option Nat
  | some 80 => if scheme = "http" then none else some 80
  | some 443 => if scheme = "https" then none else some 443
  | p => p

/-- Split the part after the authority into path, query and fragment. -/
def splitPathQueryFragment (cs : List Char) :
    String × Option String × Option String :=
  let (pathCs, rest1) := takeUntil ['?', '#'] cs
  match rest1 with
  | '?' :: r =>
    let (qCs, rest2) := takeUntil ['#'] r
    (String.mk pathCs, some (String.mk qCs),
      match rest2 with
      | '#' :: f => some (String.mk f)
      | _ => none)
  | '#' :: f => (String.mk pathCs, none, some (String.mk f))
  | _ => (String.mk pathCs, none, none)

/-- Parse an absolute URL string, or fail as the `URL` constructor throws.
Modelled from the spec: the constructor is a platform builtin (used at
`src/config.ts` line 11). -/
def parseURL (s : String) : Option URLRecord :=
  match splitSchemeSep s.toList with
  | none => none
  | some (schemeCs, rest) =>
    if schemeCs ≠ [] ∧ schemeCs.all isSchemeChar then
      let scheme := String.mk schemeCs
      let (authCs, tailCs) := takeUntil ['/', '?', '#'] rest
      match parseAuthority authCs with
      | none => none
      | some (host, port) =>
        let (pqf : String × Option String × Option String) :=
          splitPathQueryFragment tailCs
        some { scheme := scheme, host := host,
               port := normalizePort scheme port,
               path := pqf.1, query := pqf.2.1, fragment := pqf.2.2 }
    else none

/-- The constants exported by `src/config.ts`. -/
structure Config where
  SITE_TITLE : String
  SITE_DESCRIPTION : String
  TWITTER_HANDLE : String
  MY_NAME : String
  SITE_URL : String
deriving DecidableEq, Repr

/-- The values of `src/config.ts` as a function of the parsed
`import.meta.env.SITE` URL (`BASE_URL` in the source). -/
def loadConfig (baseUrl : URLRecord) : Config :=
  { SITE_TITLE := "Cloud & Code with Damian Esteban "
  , SITE_DESCRIPTION := "Dive into the world of cloud computing, software engineering, and application architecture. Damian Esteban brings you practical guides, tips, and tech musings."
  , TWITTER_HANDLE := "@estebanrules"
  , MY_NAME := "Damian Esteban"
  , SITE_URL := baseUrl.origin }

/-- The environment-provided `import.meta.env.SITE` value as seen by
`new URL(...)`: an absent value (`undefined` stringifies to a string no
URL grammar accepts) or an unparseable string both make the constructor
throw, a parseable string yields the record. -/
def parseEnvSite : Option String → Option URLRecord
  | none => none
  | some s => parseURL s

/-- Loading the `src/config.ts` module: line 11 evaluates
`new URL(import.meta.env.SITE)` and throws a `TypeError` when the input is
absent or unparseable, aborting the module (and the build) before any
constant is exported; otherwise every exported constant is fully
computed. -/
def loadConfigFromEnv (siteEnv : Option String) : Except String Config :=
  match parseEnvSite siteEnv with
  | none => Except.error "TypeError: Invalid URL"
  | some u => Except.ok (loadConfig u)

/-! Helper lemmas about the embedded sort. -/

theorem perm_jsSortInsert (x : Document) (l : List Document) :
    (jsSortInsert x l).Perm (x :: l) := by
  induction l with
  | nil => exact List.Perm.refl _
  | cons y ys ih =>
    unfold jsSortInsert
    split
    · exact (ih.cons y).trans (List.Perm.swap x y ys)
    · exact List.Perm.refl _

theorem perm_jsSort (l : List Document) : (jsSort l).Perm l := by
  induction l with
  | nil => exact List.Perm.refl _
  | cons x xs ih => exact (perm_jsSortInsert x (jsSort xs)).trans (ih.cons x)

theorem mem_jsSort {z : Document} {l : List Document} (h : z ∈ jsSort l) :
    z ∈ l :=
  (perm_jsSort l).mem_iff.mp h

theorem postCompare_neg (a b : Document) : postCompare b a = - postCompare a b := by
  unfold postCompare
  cases jsDateValue a.frontmatter.date <;> cases jsDateValue b.frontmatter.date <;> simp

theorem head_jsSortInsert (x : Document) (l : List Document) :
    (jsSortInsert x l).head? = some x ∨
      ∃ y ys, l = y :: ys ∧ (jsSortInsert x l).head? = some y ∧ 0 < postCompare x y := by
  cases l with
  | nil => left; rfl
  | cons y ys =>
    unfold jsSortInsert
    by_cases h : 0 < postCompare x y
    · right; exact ⟨y, ys, rfl, by simp [h], h⟩
    · left; simp [h]

theorem chain'_jsSortInsert (x : Document) (l : List Document)
    (h : List.Chain' (fun a b => postCompare a b ≤ 0) l) :
    List.Chain' (fun a b => postCompare a b ≤ 0) (jsSortInsert x l) := by
  induction l with
  | nil => simp [jsSortInsert]
  | cons y ys ih =>
    unfold jsSortInsert
    split
    · next hgt =>
      rw [List.chain'_cons'] at h
      rw [List.chain'_cons']
      refine ⟨?_, ih h.2⟩
      intro z hz
      rcases head_jsSortInsert x ys with hc | ⟨w, ws, hws, hw, hcmp⟩
      · rw [hc] at hz
        obtain rfl := Option.some.inj hz
        have := postCompare_neg x y
        omega
      · rw [hw] at hz
        obtain rfl := Option.some.inj hz
        exact h.1 w (by rw [hws]; rfl)
    · next hle =>
      rw [List.chain'_cons]
      exact ⟨by omega, h⟩

theorem chain'_jsSort (l : List Document) :
    List.Chain' (fun a b => postCompare a b ≤ 0) (jsSort l) := by
  induction l with
  | nil => exact List.chain'_nil
  | cons x xs ih => exact chain'_jsSortInsert x (jsSort xs) ih

theorem jsSortInsert_of_head (x : Document) (l : List Document)
    (h : ∀ z ∈ l.head?, postCompare x z ≤ 0) : jsSortInsert x l = x :: l := by
  cases l with
  | nil => rfl
  | cons y ys =>
    have hy : postCompare x y ≤ 0 := h y rfl
    unfold jsSortInsert
    rw [if_neg (by omega)]

theorem jsSort_of_chain' (l : List Document)
    (h : List.Chain' (fun a b => postCompare a b ≤ 0) l) : jsSort l = l := by
  induction l with
  | nil => rfl
  | cons x xs ih =>
    rw [List.chain'_cons'] at h
    unfold jsSort
    rw [ih h.2, jsSortInsert_of_head x xs h.1]

theorem jsSortInsertSecond_eq (x : Document) (l : List Document) :
    jsSortInsertSecond x l = jsSortInsert x l := by
  induction l with
  | nil => rfl
  | cons y ys ih => unfold jsSortInsertSecond jsSortInsert; rw [ih]

theorem jsSortSecond_eq (l : List Document) : jsSortSecond l = jsSort l := by
  induction l with
  | nil => rfl
  | cons x xs ih => unfold jsSortSecond jsSort; rw [ih, jsSortInsertSecond_eq]

/-! Claim theorems: C1, C3, C4, C5, C6. -/

/-- C1: for every input sequence of Documents, the filter/sort output
contains exactly those input Documents whose `draft` field is not strictly
equal to `true` — none added, removed, or duplicated: the output is a
permutation of that subset of the input. -/
theorem sortedPosts_perm_nonDraftSubset (posts : List Document) :
    (sortedPosts posts).Perm
      (posts.filter fun p => p.frontmatter.draft != some true) :=
  perm_jsSort _

/-- C3: the filter/sort is deterministic — a second invocation of the same
source expression (elaborated separately as `sortedPostsSecondCall`) yields
the same output list, in the same order, for every input, including inputs
where several Documents share one date (the stable sort fixes the tie
order, so no nondeterminism remains). -/
theorem sortedPosts_deterministic (posts : List Document) :
    sortedPostsSecondCall posts = sortedPosts posts := by
  unfold sortedPostsSecondCall sortedPosts
  rw [jsSortSecond_eq]

/-- C4: the filter/sort is idempotent — applying the pipeline to its own
output (a sequence already free of drafts and already sorted) returns that
sequence unchanged, for every input. -/
theorem sortedPosts_idempotent (posts : List Document) :
    sortedPosts (sortedPosts posts) = sortedPosts posts := by
  unfold sortedPosts
  have hkeep : (jsSort (posts.filter keepPost)).filter keepPost
      = jsSort (posts.filter keepPost) := by
    apply List.filter_eq_self.mpr
    intro a ha
    exact (List.mem_filter.mp (mem_jsSort ha)).2
  rw [hkeep, jsSort_of_chain' _ (chain'_jsSort _)]

/-- C5: the operation does not mutate its input.  In the explicit-state
model `runListing`, the in-place `sort` writes only to the array freshly
allocated by `filter`: the `posts` array (and therefore every Document in
it, with all of its fields) is returned unchanged, the output is the
separately held `sortedPosts` value, and re-running the operation on the
unchanged input reproduces the same output. -/
theorem runListing_no_mutation (posts : List Document) :
    (runListing posts).1.posts = posts ∧
    (runListing posts).2 = sortedPosts posts ∧
    (runListing ((runListing posts).1.posts)).2 = (runListing posts).2 :=
  ⟨rfl, rfl, rfl⟩

/-- C6: the empty input sequence yields the empty output sequence; the
operation is a total function, so no error is raised. -/
theorem sortedPosts_empty : sortedPosts [] = [] := rfl

/-! Stability of the sort with respect to the input order (C8) and
totality on inputs with unparseable dates (C9). -/

theorem postCompare_eq_of_some {a b : Document} {va vb : Int}
    (ha : tsOf a = some va) (hb : tsOf b = some vb) :
    postCompare a b = vb - va := by
  unfold tsOf at ha hb
  unfold postCompare
  rw [ha, hb]

theorem tsOf_ne_of_gt {x y : Document} {t : Int} (hx : tsOf x = some t)
    (hgt : 0 < postCompare x y) : tsOf y ≠ some t := by
  intro hy
  rw [postCompare_eq_of_some hx hy] at hgt
  omega

theorem filter_ts_jsSortInsert_out (x : Document) (l : List Document) (t : Int)
    (hx : tsOf x ≠ some t) :
    (jsSortInsert x l).filter (fun p => decide (tsOf p = some t)) =
      l.filter (fun p => decide (tsOf p = some t)) := by
  induction l with
  | nil => simp [jsSortInsert, hx]
  | cons y ys ih =>
    unfold jsSortInsert
    split
    · simp only [List.filter_cons]
      rw [ih]
    · simp [List.filter_cons, hx]

theorem filter_ts_jsSortInsert_in (x : Document) (l : List Document) (t : Int)
    (hx : tsOf x = some t) :
    (jsSortInsert x l).filter (fun p => decide (tsOf p = some t)) =
      x :: l.filter (fun p => decide (tsOf p = some t)) := by
  induction l with
  | nil => simp [jsSortInsert, hx]
  | cons y ys ih =>
    unfold jsSortInsert
    split
    · next hgt =>
      have hy : tsOf y ≠ some t := tsOf_ne_of_gt hx hgt
      simp only [List.filter_cons]
      rw [ih]
      simp [hy]
    · simp [List.filter_cons, hx]

theorem filter_ts_jsSort (l : List Document) (t : Int) :
    (jsSort l).filter (fun p => decide (tsOf p = some t)) =
      l.filter (fun p => decide (tsOf p = some t)) := by
  induction l with
  | nil => rfl
  | cons x xs ih =>
    unfold jsSort
    by_cases hx : tsOf x = some t
    · rw [filter_ts_jsSortInsert_in x _ t hx, ih]
      simp [List.filter_cons, hx]
    · rw [filter_ts_jsSortInsert_out x _ t hx, ih]
      simp [List.filter_cons, hx]

/-- C8: equal-date ties are broken by input order.  For every timestamp
value `t`, the subsequence of output Documents whose date has timestamp
`t` is exactly the subsequence of non-draft input Documents with that
timestamp, in their input order: Documents whose dates compare equal
(comparator result `0`) keep their relative input order through the stable
sort. -/
theorem sortedPosts_stable_on_ties (posts : List Document) (t : Int) :
    (sortedPosts posts).filter (fun p => decide (tsOf p = some t)) =
      (posts.filter keepPost).filter (fun p => decide (tsOf p = some t)) :=
  filter_ts_jsSort (posts.filter keepPost) t

/-- Boolean check that some Document of the list has a date that does not
parse to a timestamp (so its comparator results are `NaN`). -/
def hasInvalidDate (posts : List Document) : Bool :=
  posts.any (fun p => (tsOf p).isNone)

/-- C9: the pipeline is total and never throws, even when some input
Document's `date` does not parse to a valid timestamp (the comparator then
yields `NaN`, which the sort treats as `0`): on any such input it still
returns a permutation of the non-draft subset rather than failing. -/
theorem sortedPosts_total_on_invalid_dates (posts : List Document)
    (h : hasInvalidDate posts = true) :
    (sortedPosts posts).Perm (posts.filter keepPost) :=
  perm_jsSort (posts.filter keepPost)

/-! Calendar arithmetic: the comparator orders Documents by true
chronological instants (C2). -/

/-- Strict lexicographic order on calendar dates: the true chronological
order across year, month and day boundaries. -/
def calLt (a b : CalDate) : Prop :=
  a.year < b.year ∨
    (a.year = b.year ∧
      (a.month < b.month ∨ (a.month = b.month ∧ a.day < b.day)))

/-- Weak lexicographic order on calendar dates. -/
def calLe (a b : CalDate) : Prop :=
  a.year < b.year ∨
    (a.year = b.year ∧
      (a.month < b.month ∨ (a.month = b.month ∧ a.day ≤ b.day)))

theorem isLeap_iff (y : Nat) :
    isLeap y = true ↔ (y % 4 = 0 ∧ (y % 100 ≠ 0 ∨ y % 400 = 0)) := by
  unfold isLeap
  exact decide_eq_true_iff

theorem daysBeforeYear_succ_leap (y : Nat) (h : isLeap y = true) :
    daysBeforeYear (y + 1) = daysBeforeYear y + 366 := by
  have harith := (isLeap_iff y).mp h
  unfold daysBeforeYear
  omega

set_option maxHeartbeats 2000000 in
theorem daysBeforeYear_succ_nonleap (y : Nat) (h : isLeap y = false) :
    daysBeforeYear (y + 1) = daysBeforeYear y + 365 := by
  have harith : ¬(y % 4 = 0 ∧ (y % 100 ≠ 0 ∨ y % 400 = 0)) := by
    intro hc
    have hc' := (isLeap_iff y).mpr hc
    rw [hc'] at h
    exact Bool.noConfusion h
  unfold daysBeforeYear
  omega

theorem daysBeforeYear_le_succ (y : Nat) :
    daysBeforeYear y ≤ daysBeforeYear (y + 1) := by
  cases h : isLeap y with
  | true => rw [daysBeforeYear_succ_leap y h]; omega
  | false => rw [daysBeforeYear_succ_nonleap y h]; omega

theorem daysBeforeYear_mono {y y' : Nat} (h : y ≤ y') :
    daysBeforeYear y ≤ daysBeforeYear y' := by
  induction y' with
  | zero => rw [Nat.le_zero.mp h]
  | succ n ih =>
    rcases Nat.lt_or_ge y (n + 1) with hlt | hge
    · exact le_trans (ih (Nat.lt_succ_iff.mp hlt)) (daysBeforeYear_le_succ n)
    · rw [le_antisymm h hge]

theorem dayOfYear_le_nonleap {d : CalDate} (h : validYMD d)
    (hL : isLeap d.year = false) :
    daysBeforeMonth false d.month + (d.day - 1) ≤ 364 := by
  obtain ⟨y, m, dd⟩ := d
  obtain ⟨hm1, hm2, hd1, hd2⟩ := h
  simp only at hm1 hm2 hd1 hd2 hL ⊢
  interval_cases m <;> simp_all [daysBeforeMonth, daysInMonth] <;> omega

theorem dayOfYear_le_leap {d : CalDate} (h : validYMD d)
    (hL : isLeap d.year = true) :
    daysBeforeMonth true d.month + (d.day - 1) ≤ 365 := by
  obtain ⟨y, m, dd⟩ := d
  obtain ⟨hm1, hm2, hd1, hd2⟩ := h
  simp only at hm1 hm2 hd1 hd2 hL ⊢
  interval_cases m <;> simp_all [daysBeforeMonth, daysInMonth] <;> omega

theorem dayNumber_lt_of_year_lt {d1 d2 : CalDate} (h1 : validYMD d1)
    (hy : d1.year < d2.year) : dayNumber d1 < dayNumber d2 := by
  have hmono : daysBeforeYear (d1.year + 1) ≤ daysBeforeYear d2.year :=
    daysBeforeYear_mono hy
  unfold dayNumber
  cases hL : isLeap d1.year with
  | true =>
    have hb1 := dayOfYear_le_leap h1 hL
    have hsucc := daysBeforeYear_succ_leap d1.year hL
    omega
  | false =>
    have hb1 := dayOfYear_le_nonleap h1 hL
    have hsucc := daysBeforeYear_succ_nonleap d1.year hL
    omega

theorem dayNumber_lt_of_month_lt {d1 d2 : CalDate} (h1 : validYMD d1)
    (h2 : validYMD d2) (hy : d1.year = d2.year) (hm : d1.month < d2.month) :
    dayNumber d1 < dayNumber d2 := by
  obtain ⟨y1, m1, dd1⟩ := d1
  obtain ⟨y2, m2, dd2⟩ := d2
  obtain ⟨ha1, ha2, ha3, ha4⟩ := h1
  obtain ⟨hb1, hb2, hb3, hb4⟩ := h2
  simp only at ha1 ha2 ha3 ha4 hb1 hb2 hb3 hb4 hy hm
  subst hy
  unfold dayNumber
  simp only
  have hkey : daysBeforeMonth (isLeap y1) m1 + dd1 ≤ daysBeforeMonth (isLeap y1) m2 := by
    cases hL : isLeap y1 <;>
      interval_cases m1 <;> interval_cases m2 <;>
      simp_all [daysBeforeMonth, daysInMonth] <;> omega
  omega

theorem dayNumber_lt_of_calLt {d1 d2 : CalDate} (h1 : validYMD d1)
    (h2 : validYMD d2) (h : calLt d1 d2) : dayNumber d1 < dayNumber d2 := by
  rcases h with hy | ⟨hy, hm | ⟨hm, hd⟩⟩
  · exact dayNumber_lt_of_year_lt h1 hy
  · exact dayNumber_lt_of_month_lt h1 h2 hy hm
  · obtain ⟨y1, m1, dd1⟩ := d1
    obtain ⟨y2, m2, dd2⟩ := d2
    obtain ⟨ha1, ha2, ha3, ha4⟩ := h1
    simp only at hy hm hd ha3
    subst hy
    subst hm
    unfold dayNumber
    simp only
    omega

theorem msOfDate_lt {d1 d2 : CalDate} (h : dayNumber d1 < dayNumber d2) :
    msOfDate d1 < msOfDate d2 := by
  unfold msOfDate
  have hc : (dayNumber d1 : Int) < (dayNumber d2 : Int) := by exact_mod_cast h
  omega

theorem calLe_of_msOfDate_le {d1 d2 : CalDate} (h1 : validYMD d1)
    (h2 : validYMD d2) (h : msOfDate d1 ≤ msOfDate d2) : calLe d1 d2 := by
  by_contra hc
  have hlt : calLt d2 d1 := by
    unfold calLe at hc
    unfold calLt
    omega
  have := msOfDate_lt (dayNumber_lt_of_calLt h2 h1 hlt)
  omega

/-! Sortedness of the output (C2). -/

/-- The timestamp a Document contributes to the comparator, defaulting to
`0`; under the valid-date hypotheses of the theorems below the default is
never taken. -/
def dval (p : Document) : Int :=
  (tsOf p).getD 0

/-- The calendar date of a Document, defaulting to the epoch; under the
valid-date hypotheses of the theorems below the default is never taken. -/
def dcal (p : Document) : CalDate :=
  (p.frontmatter.date).getD ⟨1970, 1, 1⟩

/-- Descending publication order: `a` dominates `b` when `a`'s date is no
older than `b`'s, both as a numeric timestamp and as a calendar date
(chronological order across year/month/day boundaries). -/
def postDominates (a b : Document) : Prop :=
  dval b ≤ dval a ∧ calLe (dcal b) (dcal a)

/-- Boolean check that every Document of the list carries a parseable,
valid calendar date. -/
def allDatesValid (posts : List Document) : Bool :=
  posts.all (fun p => validDate? p.frontmatter.date)

theorem postCompare_eq_dval {a b : Document} (ha : tsOf a ≠ none)
    (hb : tsOf b ≠ none) : postCompare a b = dval b - dval a := by
  unfold tsOf at ha hb
  unfold postCompare dval tsOf
  cases hva : jsDateValue a.frontmatter.date with
  | none => exact absurd hva ha
  | some va =>
    cases hvb : jsDateValue b.frontmatter.date with
    | none => exact absurd hvb hb
    | some vb => rfl

theorem pairwise_dval_jsSortInsert (x : Document) (l : List Document)
    (hx : tsOf x ≠ none) (hl : ∀ p ∈ l, tsOf p ≠ none)
    (h : l.Pairwise (fun a b => dval b ≤ dval a)) :
    (jsSortInsert x l).Pairwise (fun a b => dval b ≤ dval a) := by
  induction l with
  | nil => simp [jsSortInsert]
  | cons y ys ih =>
    rw [List.pairwise_cons] at h
    have hy : tsOf y ≠ none := hl y (by simp)
    have hys : ∀ p ∈ ys, tsOf p ≠ none := fun p hp => hl p (by simp [hp])
    have hcmp : postCompare x y = dval y - dval x := postCompare_eq_dval hx hy
    unfold jsSortInsert
    split
    · next hgt =>
      rw [List.pairwise_cons]
      refine ⟨?_, ih hys h.2⟩
      intro z hz
      rcases List.mem_cons.mp ((perm_jsSortInsert x ys).mem_iff.mp hz) with hzx | hzys
      · rw [hzx]; omega
      · exact h.1 z hzys
    · next hle =>
      rw [List.pairwise_cons]
      refine ⟨?_, List.pairwise_cons.mpr h⟩
      intro z hz
      rcases List.mem_cons.mp hz with hzy | hzys
      · rw [hzy]; omega
      · have := h.1 z hzys
        omega

theorem pairwise_dval_jsSort (l : List Document)
    (hl : ∀ p ∈ l, tsOf p ≠ none) :
    (jsSort l).Pairwise (fun a b => dval b ≤ dval a) := by
  induction l with
  | nil => simp [jsSort]
  | cons x xs ih =>
    unfold jsSort
    refine pairwise_dval_jsSortInsert x (jsSort xs) (hl x (by simp)) ?_
      (ih (fun p hp => hl p (by simp [hp])))
    intro p hp
    exact hl p (by simp [mem_jsSort hp])

theorem pairwise_imp_of_mem {α : Type} {R S : α → α → Prop} :
    ∀ {l : List α}, (∀ a ∈ l, ∀ b ∈ l, R a b → S a b) →
      l.Pairwise R → l.Pairwise S
  | [], _, _ => List.Pairwise.nil
  | x :: xs, H, h => by
    rw [List.pairwise_cons] at h ⊢
    refine ⟨fun b hb => H x (by simp) b (by simp [hb]) (h.1 b hb), ?_⟩
    exact pairwise_imp_of_mem
      (fun a ha b hb => H a (by simp [ha]) b (by simp [hb])) h.2

theorem validDate?_spec {p : Document}
    (h : validDate? p.frontmatter.date = true) :
    ∃ d, p.frontmatter.date = some d ∧ validYMD d ∧
      dval p = msOfDate d ∧ dcal p = d := by
  cases hd : p.frontmatter.date with
  | none => rw [hd] at h; exact absurd h (by simp [validDate?])
  | some d =>
    rw [hd] at h
    refine ⟨d, rfl, ?_, ?_, ?_⟩
    · simpa [validDate?] using h
    · simp [dval, tsOf, jsDateValue, hd]
    · simp [dcal, hd]

/-- C2: when every input Document has a valid date, the output is in
descending chronological order: for every pair of output Documents with
`A` before `B`, `A.date >= B.date` both as numeric millisecond timestamps
and as calendar dates — the comparison is by true chronological instants,
correct across year/month/day boundaries, not by string lexical order. -/
theorem sortedPosts_sorted_descending (posts : List Document)
    (hv : allDatesValid posts = true) :
    (sortedPosts posts).Pairwise postDominates := by
  rw [allDatesValid, List.all_eq_true] at hv
  have hvmem : ∀ p ∈ posts.filter keepPost,
      validDate? p.frontmatter.date = true :=
    fun p hp => hv p (List.mem_of_mem_filter hp)
  have hts : ∀ p ∈ posts.filter keepPost, tsOf p ≠ none := by
    intro p hp
    obtain ⟨d, hd, _, _, _⟩ := validDate?_spec (hvmem p hp)
    simp [tsOf, hd, jsDateValue]
  have hpw := pairwise_dval_jsSort (posts.filter keepPost) hts
  refine pairwise_imp_of_mem ?_ hpw
  intro a ha b hb hR
  have hva := hvmem a (mem_jsSort ha)
  have hvb := hvmem b (mem_jsSort hb)
  obtain ⟨da, hda, hya, hdva, hdca⟩ := validDate?_spec hva
  obtain ⟨db, hdb, hyb, hdvb, hdcb⟩ := validDate?_spec hvb
  refine ⟨hR, ?_⟩
  rw [hdca, hdcb]
  rw [hdva, hdvb] at hR
  exact calLe_of_msOfDate_le hyb hya hR

/-! Concrete inputs used by the witnesses. -/

/-- A sample Document with the given slug, date field and draft flag. -/
def sampleDoc (slug : String) (date : Option CalDate)
    (draft : Option Bool) : Document :=
  { slug := slug
  , frontmatter :=
    { title := "title", description := "description", date := date
    , external := false, draft := draft, ogImagePath := none, url := none }
  , body := "body" }

/-- Spec Example 1: two published posts and one draft, all with valid
dates. -/
def examplePosts : List Document :=
  [ sampleDoc "a" (some ⟨2023, 6, 6⟩) (some false)
  , sampleDoc "b" (some ⟨2025, 6, 16⟩) (some false)
  , sampleDoc "c" (some ⟨2023, 8, 20⟩) (some true) ]

/-- An input in which one Document's date does not parse. -/
def examplePostsInvalid : List Document :=
  [ sampleDoc "a" none none
  , sampleDoc "b" (some ⟨2023, 6, 6⟩) none
  , sampleDoc "c" (some ⟨2025, 6, 16⟩) (some true) ]

/-- Witness for C2 at spec Example 1. -/
theorem sortedPosts_sorted_descending_witness :
    allDatesValid examplePosts = true ∧
      (sortedPosts examplePosts).Pairwise postDominates :=
  ⟨by decide, sortedPosts_sorted_descending examplePosts (by decide)⟩

/-- Witness for C9 at an input containing an unparseable date. -/
theorem sortedPosts_total_on_invalid_dates_witness :
    hasInvalidDate examplePostsInvalid = true ∧
      (sortedPosts examplePostsInvalid).Perm
        (examplePostsInvalid.filter keepPost) :=
  ⟨by decide, sortedPosts_total_on_invalid_dates examplePostsInvalid (by decide)⟩

/-! Configuration claims (C7, C10). -/

/-- C7: when the environment-provided site URL parses, loading the
configuration module succeeds and exposes the fixed constants of
`src/config.ts`, with `SITE_URL` equal to exactly the origin of the parsed
URL — scheme, host and port only; the final conjunct shows the origin is
unchanged when the URL's path, query and fragment are erased, so none of
them enter `SITE_URL`. -/
theorem config_SITE_URL_is_origin (s : String) (u : URLRecord)
    (h : parseURL s = some u) :
    loadConfigFromEnv (some s) = Except.ok (loadConfig u) ∧
    (loadConfig u).SITE_URL = u.origin ∧
    (loadConfig u).SITE_TITLE = "Cloud & Code with Damian Esteban " ∧
    (loadConfig u).SITE_DESCRIPTION = "Dive into the world of cloud computing, software engineering, and application architecture. Damian Esteban brings you practical guides, tips, and tech musings." ∧
    (loadConfig u).TWITTER_HANDLE = "@estebanrules" ∧
    (loadConfig u).MY_NAME = "Damian Esteban" ∧
    URLRecord.origin
      { scheme := u.scheme, host := u.host, port := u.port
      , path := "", query := none, fragment := none } = u.origin := by
  refine ⟨?_, rfl, rfl, rfl, rfl, rfl, rfl⟩
  simp only [loadConfigFromEnv, parseEnvSite, h]

/-- The site URL this deployment provides via `astro.config.mjs`. -/
def exampleSiteInput : String :=
  "https://blog.damianesteban.dev/posts?page=2#top"

/-- The parse of `exampleSiteInput`. -/
def exampleParsedURL : URLRecord :=
  { scheme := "https", host := "blog.damianesteban.dev", port := none
  , path := "/posts", query := some "page=2", fragment := some "top" }

/-- Witness for C7 at a concrete site URL carrying a path, a query and a
fragment, none of which reach `SITE_URL`. -/
theorem config_SITE_URL_is_origin_witness :
    parseURL exampleSiteInput = some exampleParsedURL ∧
      loadConfigFromEnv (some exampleSiteInput) =
        Except.ok (loadConfig exampleParsedURL) ∧
      (loadConfig exampleParsedURL).SITE_URL = "https://blog.damianesteban.dev" :=
  ⟨by decide,
   (config_SITE_URL_is_origin exampleSiteInput exampleParsedURL (by decide)).1,
   by decide⟩

/-- C10: configuration construction fails fast.  When the
environment-provided site URL is absent (`none`: `undefined` stringifies
to a text no URL grammar accepts) or does not parse as an absolute URL,
loading the module yields the thrown `TypeError` of the `URL` constructor
instead of a configuration, so the build halts and no partially
initialized `SITE_URL` is ever exposed (the error carries no `Config`
value at all). -/
theorem config_load_fails_fast (siteEnv : Option String)
    (h : parseEnvSite siteEnv = none) :
    loadConfigFromEnv siteEnv = Except.error "TypeError: Invalid URL" := by
  unfold loadConfigFromEnv
  rw [h]

/-- Witness for C10 at a string that is not an absolute URL. -/
theorem config_load_fails_fast_witness :
    parseEnvSite (some "notaurl") = none ∧
      loadConfigFromEnv (some "notaurl") =
        Except.error "TypeError: Invalid URL" :=
  ⟨by decide, config_load_fails_fast (some "notaurl") (by decide)⟩

end AstroBlog
